import Mathlib

/-!
Verification of the dependency-graph analyzer of the Visualizer repository
(`src/services/repoAnalyzer.ts`, with the submit-time check of
`src/components/RepoForm.tsx`).

The analyzer is embedded shallowly: a repository is the list of discovered
files (repository-relative POSIX path plus read content — discovery and the
clone are collaborators outside the core), and `analyzeRepository` is the
pure function from that list to the `DependencyGraph` value the core returns.
All string and path helpers below reproduce the Node.js / JavaScript
behaviour the source relies on (`path.dirname`, `path.basename`,
`path.extname`, `path.join`, `String.prototype.split`, `Map`/`Set`
insertion-order semantics), restricted to the ASCII inputs the analyzer
handles.
-/

/-- Named characters (single quote, double quote, newline, carriage return,
tab, backslash) used by the lexical scanners. -/
def cSQ : Char := Char.ofNat 39
def cDQ : Char := Char.ofNat 34
def cNL : Char := Char.ofNat 10
def cCR : Char := Char.ofNat 13
def cTab : Char := Char.ofNat 9
def cBS : Char := Char.ofNat 92

/-- JavaScript `\s` restricted to the ASCII whitespace the analyzer meets. -/
def isWs (c : Char) : Bool := c == ' ' || c == cTab || c == cNL || c == cCR

/-- Characters matched by the JavaScript regex `.` (no newlines). -/
def isDotCh (c : Char) : Bool := !(c == cNL || c == cCR)

def isQuote (c : Char) : Bool := c == cSQ || c == cDQ

/-- ASCII lower-casing of one character, as `String.prototype.toLowerCase`
acts on the ASCII paths the analyzer builds its keys from. -/
def charLower (c : Char) : Char :=
  if 'A' ≤ c ∧ c ≤ 'Z' then Char.ofNat (c.toNat + 32) else c

def strToLower (s : String) : String := String.mk (s.toList.map charLower)

/-- `String.prototype.startsWith`. -/
def strStartsWith (s p : String) : Bool := p.toList.isPrefixOf s.toList

def containsSub (sub : List Char) : List Char → Bool
  | [] => sub.isEmpty
  | c :: cs => sub.isPrefixOf (c :: cs) || containsSub sub cs

/-- `String.prototype.includes`. -/
def strContains (s sub : String) : Bool := containsSub sub.toList s.toList

/-- `String.prototype.trim` on ASCII input. -/
def strTrim (s : String) : String :=
  String.mk (((s.toList.dropWhile isWs).reverse.dropWhile isWs).reverse)

/-- `importPath.replace(/['"]/g, '')`. -/
def stripQuotes (s : String) : String :=
  String.mk (s.toList.filter (fun c => !(isQuote c)))

/-- `content.split('\n').length`: one more than the number of newlines. -/
def countLines (s : String) : Nat :=
  (s.toList.filter (fun c => c == cNL)).length + 1

/-- `path.basename` (POSIX): the part after the last slash. -/
def pathBasename (s : String) : String :=
  String.mk ((s.toList.reverse.takeWhile (fun c => c ≠ '/')).reverse)

/-- `path.dirname` (POSIX): the part before the last slash, `"."` when there
is no slash, `"/"` for a path whose only slash is leading. -/
def pathDirname (s : String) : String :=
  match s.toList.reverse.dropWhile (fun c => c ≠ '/') with
  | [] => "."
  | _ :: tl => if tl.isEmpty then "/" else String.mk tl.reverse

/-- `path.extname` (POSIX): from the last dot of the basename to the end,
empty when there is no dot or the dot is the basename's first character. -/
def pathExtname (s : String) : String :=
  let b := (pathBasename s).toList
  let extRev := b.reverse.takeWhile (fun c => c ≠ '.')
  if extRev.length == b.length then ""
  else if extRev.length + 1 == b.length then ""
  else "." ++ String.mk extRev.reverse

/-- Splitting a path into its `/`-separated segments (the behaviour of
`split('/')`: empty segments are kept, the empty string gives `[""]`). -/
def splitSegsAux : List Char → List Char → List String
  | [], cur => [String.mk cur.reverse]
  | c :: cs, cur =>
    if c == '/' then String.mk cur.reverse :: splitSegsAux cs []
    else splitSegsAux cs (c :: cur)

def splitSegs (s : String) : List String := splitSegsAux s.toList []

/-- Joining segments with `/` (the behaviour of `join('/')`). -/
def joinSegs : List String → String
  | [] => ""
  | [x] => x
  | x :: xs => x ++ "/" ++ joinSegs xs

/-- Normalisation of path segments: drops empty and `"."` segments and
cancels `".."` against a preceding segment, keeping leading `".."`s. -/
def normSegs (acc : List String) : List String → List String
  | [] => acc.reverse
  | seg :: rest =>
    if seg = "" || seg = "." then normSegs acc rest
    else if seg = ".." then
      match acc with
      | [] => normSegs [".."] rest
      | top :: tl => if top = ".." then normSegs (seg :: acc) rest else normSegs tl rest
    else normSegs (seg :: acc) rest

/-- The candidate repository-relative path of the source's
`path.relative(tempDir, path.resolve(path.dirname(sourceFile), importPath))`
for a source file given by its repository-relative path: join the specifier
onto the source's directory and normalise.  A specifier starting with `/`
resolves outside the repository; it is kept absolute so that it can never
hit the (relative-keyed) lookup maps, as in the source. -/
def resolveCandidate (srcRel importPath : String) : String :=
  if strStartsWith importPath "/" then
    "/" ++ joinSegs (normSegs [] (splitSegs importPath))
  else
    joinSegs (normSegs [] (splitSegs (pathDirname srcRel ++ "/" ++ importPath)))

/-- `path.join` on an already normalised directory. -/
def pathJoin (a b : String) : String :=
  if a == "" || a == "." then b
  else if a == "/" then "/" ++ b
  else a ++ "/" ++ b

/-- Insertion-order association update, the behaviour of `Map.prototype.set`
for string keys: replace the first entry with the key, else append. -/
def setAssoc {α : Type} : List (String × α) → String → α → List (String × α)
  | [], k, v => [(k, v)]
  | p :: rest, k, v => if p.1 == k then (k, v) :: rest else p :: setAssoc rest k v

/-- `Map.prototype.get`. -/
def getAssoc {α : Type} (m : List (String × α)) (k : String) : Option α :=
  (m.find? (fun p => p.1 == k)).map (·.2)

/-- `pathWithExt.toLowerCase().replace(/\\/g, '/')`. -/
def normalizeKey (s : String) : String :=
  String.mk (s.toList.map (fun c => if c == cBS then '/' else charLower c))

/-! ## ImportExtractor (`IMPORT_PATTERNS` / `extractImports`)

Each of the ten global regexes of `IMPORT_PATTERNS` is embedded as a scanner
that, at a given position, either produces the pattern's first capture group
together with the rest of the text after the whole match, or fails.  The
global `exec` loop is `scanWith`: try the pattern at every position from left
to right, and after a match continue right after it (`lastIndex`).  For these
particular patterns the greedy/lazy backtracking of the JavaScript engine is
deterministic (a maximal `\s+`/`\s*`/`[^X]+` run followed by a delimiter that
the run's character class excludes), except for the lazy `.*?` of the ES6
pattern, which is the explicit forward scan `scanLazyFrom`. -/

/-- Match a literal character sequence, returning the rest. -/
def matchLit : List Char → List Char → Option (List Char)
  | [], l => some l
  | _ :: _, [] => none
  | c :: cs, x :: xs => if x == c then matchLit cs xs else none

/-- `\s*` (greedy). -/
def dropWsStar (l : List Char) : List Char := l.dropWhile isWs

/-- `\s+` (greedy, at least one). -/
def dropWsPlus (l : List Char) : Option (List Char) :=
  match l with
  | c :: cs => if isWs c then some (cs.dropWhile isWs) else none
  | [] => none

/-- A maximal non-empty run of characters of a class, as `[^X]+` followed by
a delimiter outside the class behaves. -/
def takeClassPlus (mem : Char → Bool) (l : List Char) : Option (String × List Char) :=
  let run := l.takeWhile mem
  if run.isEmpty then none else some (String.mk run, l.drop run.length)

/-- `['"]([^'"]+)['"]`, capturing the inside. -/
def matchQuoted (l : List Char) : Option (String × List Char) :=
  match l with
  | q :: rest =>
    if isQuote q then
      match takeClassPlus (fun c => !(isQuote c)) rest with
      | some (cap, q2 :: rest2) => if isQuote q2 then some (cap, rest2) else none
      | _ => none
    else none
  | [] => none

/-- `from\s+['"]([^'"]+)['"]` — pattern 4, and the tail of pattern 1. -/
def matchFromClause (l : List Char) : Option (String × List Char) := do
  let l1 ← matchLit "from".toList l
  let l2 ← dropWsPlus l1
  matchQuoted l2

/-- The lazy `.*?` before `from…`: try the tail here, else consume one
`.`-matching character and move on. -/
def scanLazyFrom : List Char → Option (String × List Char)
  | [] => none
  | c :: cs =>
    match matchFromClause (c :: cs) with
    | some r => some r
    | none => if isDotCh c then scanLazyFrom cs else none

/-- Pattern 1: `import\s+.*?from\s+['"]([^'"]+)['"]`. -/
def matchEs6Import (l : List Char) : Option (String × List Char) := do
  let l1 ← matchLit "import".toList l
  let l2 ← dropWsPlus l1
  scanLazyFrom l2

/-- Patterns 2, 3 and 9: `kw\s*\(\s*['"]([^'"]+)['"]\s*\)`. -/
def matchCallQuoted (kw : String) (l : List Char) : Option (String × List Char) := do
  let l1 ← matchLit kw.toList l
  let l2 ← matchLit ['('] (dropWsStar l1)
  let (cap, l3) ← matchQuoted (dropWsStar l2)
  let l4 ← matchLit [')'] (dropWsStar l3)
  some (cap, l4)

/-- Pattern 5: `import\s+(['"]([^'"]+)['"])` — the capture the source uses
(`match[1]`) keeps the surrounding quotes. -/
def matchImportQuoted (l : List Char) : Option (String × List Char) := do
  let l1 ← matchLit "import".toList l
  let l2 ← dropWsPlus l1
  match l2 with
  | q :: rest =>
    if isQuote q then
      match takeClassPlus (fun c => !(isQuote c)) rest with
      | some (cap, q2 :: rest2) =>
        if isQuote q2 then some (String.mk [q] ++ cap ++ String.mk [q2], rest2) else none
      | _ => none
    else none
  | [] => none

/-- Patterns 6 and 8: `kw\s+([^;]+);`. -/
def matchToSemi (kw : String) (l : List Char) : Option (String × List Char) := do
  let l1 ← matchLit kw.toList l
  let l2 ← dropWsPlus l1
  let (cap, l3) ← takeClassPlus (fun c => c ≠ ';') l2
  let l4 ← matchLit [';'] l3
  some (cap, l4)

/-- Pattern 7: `#include\s*["<]([^">]+)[">]`. -/
def matchInclude (l : List Char) : Option (String × List Char) := do
  let l1 ← matchLit "#include".toList l
  match dropWsStar l1 with
  | o :: rest =>
    if o == cDQ || o == '<' then
      match takeClassPlus (fun c => !(c == cDQ || c == '>')) rest with
      | some (cap, cl :: rest2) => if cl == cDQ || cl == '>' then some (cap, rest2) else none
      | _ => none
    else none
  | [] => none

/-- Pattern 10: `@import\s*['"]([^'"]+)['"]`. -/
def matchAtImport (l : List Char) : Option (String × List Char) := do
  let l1 ← matchLit "@import".toList l
  matchQuoted (dropWsStar l1)

/-- The global `exec` loop of one pattern: fuelled by the input length, which
suffices because every successful match consumes at least one character. -/
def scanAllAux (m : List Char → Option (String × List Char)) : Nat → List Char → List String
  | 0, _ => []
  | _ + 1, [] => []
  | n + 1, c :: cs =>
    match m (c :: cs) with
    | some (cap, rest) => cap :: scanAllAux m n rest
    | none => scanAllAux m n cs

def scanWith (m : List Char → Option (String × List Char)) (content : String) : List String :=
  scanAllAux m content.toList.length content.toList

/-- All raw captures, patterns applied in the order of `IMPORT_PATTERNS`. -/
def patternCaptures (content : String) : List String :=
  scanWith matchEs6Import content ++
  scanWith (matchCallQuoted "require") content ++
  scanWith (matchCallQuoted "import") content ++
  scanWith matchFromClause content ++
  scanWith matchImportQuoted content ++
  scanWith (matchToSemi "import") content ++
  scanWith matchInclude content ++
  scanWith (matchToSemi "using") content ++
  scanWith (matchCallQuoted "load") content ++
  scanWith matchAtImport content

/-- One capture's post-processing in `extractImports`: drop dependency-cache
and URL specifiers, strip quotes, trim, and add to the insertion-ordered
deduplicated accumulator (the `Set` of the source). -/
def addSpecifier (acc : List String) (raw : String) : List String :=
  if strContains raw "node_modules" || strStartsWith raw "http" then acc
  else
    let p := strTrim (stripQuotes raw)
    if p = "" then acc
    else if acc.contains p then acc
    else acc ++ [p]

/-- `extractImports`: the deduplicated specifier list (returned in the
source via `Array.from` of the `Set`, i.e. insertion order). -/
def extractImports (content : String) : List String :=
  (patternCaptures content).foldl addSpecifier []

/-! ## Data model and PathResolver (`fastResolveImport`) -/

/-- A discovered file: repository-relative POSIX path and read content (an
unreadable file falls back to empty content in the source and still becomes
a node). -/
structure RepoFile where
  path : String
  content : String
deriving Repr, DecidableEq

structure DependencyNode where
  id : String
  label : String
  type : String
  size : Nat
  importance : ℚ
  directory : String
  lines : Nat
deriving Repr, DecidableEq

structure DependencyEdge where
  source : String
  target : String
  value : Nat
deriving Repr, DecidableEq

structure DependencyGraph where
  nodes : List DependencyNode
  edges : List DependencyEdge
deriving Repr, DecidableEq

/-- The fixed extension priority list of `fastResolveImport`. -/
def extensionsList : List String :=
  [".ts", ".tsx", ".js", ".jsx", ".go", ".py", ".java", ".php", ".rb", ".cs", ".cpp", ".h"]

/-- Step 1 of resolution: exact match of candidate-plus-extension in the
normalised-path map, first extension wins. -/
def firstExtMatch (fileMap : List (String × String)) (relativePath : String) :
    List String → Option String
  | [] => none
  | ext :: rest =>
    match getAssoc fileMap (normalizeKey (relativePath ++ ext)) with
    | some v => some v
    | none => firstExtMatch fileMap relativePath rest

/-- Step 2 of resolution: `index` + extension joined onto `targetDir`,
looked up in that directory's file set. -/
def firstIndexMatch (dirFiles : List String) (targetDir : String) :
    List String → Option String
  | [] => none
  | ext :: rest =>
    let indexFile := pathJoin targetDir ("index" ++ ext)
    if dirFiles.contains indexFile then some indexFile
    else firstIndexMatch dirFiles targetDir rest

/-- Step 3 of resolution: first map entry whose key's basename equals the
specifier's basename plus extension (lower-cased), scanning extensions in
priority order and map keys in insertion order; returns the entry's value
(`fileMap.get(mapPath)`). -/
def firstBasenameMatch (fileMap : List (String × String)) (base : String) :
    List String → Option String
  | [] => none
  | ext :: rest =>
    let normalizedFilename := strToLower (base ++ ext)
    match fileMap.find? (fun p => pathBasename p.1 == normalizedFilename) with
    | some p => some p.2
    | none => firstBasenameMatch fileMap base rest

/-- `fastResolveImport`, on repository-relative paths.  Note that step 2 of
the source computes `path.dirname(relativePath)` — the parent of the
candidate — as the directory whose `index` files are consulted. -/
def fastResolveImport (sourceRel importPath : String)
    (fileMap : List (String × String)) (filesByDirectory : List (String × List String)) :
    Option String :=
  let relativePath := resolveCandidate sourceRel importPath
  match firstExtMatch fileMap relativePath extensionsList with
  | some v => some v
  | none =>
    let targetDir := pathDirname relativePath
    let viaIndex :=
      match getAssoc filesByDirectory targetDir with
      | some dirFiles => firstIndexMatch dirFiles targetDir extensionsList
      | none => none
    match viaIndex with
    | some v => some v
    | none => firstBasenameMatch fileMap (pathBasename importPath) extensionsList

/-! ## GraphAssembler and ImportanceScorer (`analyzeRepository`) -/

/-- The lookup maps built in one pass over the discovered files:
`fileMap` (normalised path → canonical relative path) and
`filesByDirectory` (directory → insertion-ordered set of relative paths). -/
def buildStep (ms : List (String × String) × List (String × List String))
    (f : RepoFile) : List (String × String) × List (String × List String) :=
  let fileMap := setAssoc ms.1 (normalizeKey f.path) f.path
  let dir := pathDirname f.path
  let cur := (getAssoc ms.2 dir).getD []
  let fbd := setAssoc ms.2 dir (if cur.contains f.path then cur else cur ++ [f.path])
  (fileMap, fbd)

def buildMaps (files : List RepoFile) :
    List (String × String) × List (String × List String) :=
  files.foldl buildStep ([], [])

/-- The node built for one discovered file (importance is the placeholder 1,
finalised after edge aggregation). -/
def mkNode (f : RepoFile) : DependencyNode :=
  let lines := countLines f.content
  let directory := pathDirname f.path
  { id := f.path
    label := pathBasename f.path
    type := (fun e => if e == "" then "other" else e) ((pathExtname f.path).drop 1)
    size := max 1 (lines / 10)
    importance := 1
    directory := if directory == "." then "root" else directory
    lines := lines }

/-- The edges one file contributes: each extracted specifier that starts
with `.` or `/` is resolved, and a successful resolution to a file other
than the source itself yields one edge of value 1. -/
def edgesForFile (f : RepoFile) (fileMap : List (String × String))
    (filesByDirectory : List (String × List String)) : List DependencyEdge :=
  (extractImports f.content).filterMap fun importPath =>
    if strStartsWith importPath "." || strStartsWith importPath "/" then
      match fastResolveImport f.path importPath fileMap filesByDirectory with
      | some resolvedTarget =>
        if resolvedTarget ≠ f.path then
          some { source := f.path, target := resolvedTarget, value := 1 }
        else none
      | none => none
    else none

/-- One edge's contribution to `connectionCounts`: increment the counts of
its source and of its target. -/
def connStep (m : List (String × Nat)) (e : DependencyEdge) : List (String × Nat) :=
  let m1 := setAssoc m e.source ((getAssoc m e.source).getD 0 + 1)
  setAssoc m1 e.target ((getAssoc m1 e.target).getD 0 + 1)

/-- The `connectionCounts` accumulator over all edges. -/
def connectionCounts (edges : List DependencyEdge) : List (String × Nat) :=
  edges.foldl connStep []

def countOf (m : List (String × Nat)) (id : String) : Nat := (getAssoc m id).getD 0

/-- `getFileTypeImportance`'s lookup table. -/
def importanceMap : List (String × ℚ) :=
  [("json", 8), ("js", 7), ("ts", 7), ("tsx", 7), ("jsx", 7),
   ("go", 7), ("py", 7), ("java", 7), ("cpp", 7), ("c", 7), ("rs", 7),
   ("md", 6), ("html", 6), ("css", 5), ("scss", 5),
   ("h", 6), ("hpp", 6), ("php", 6), ("rb", 6), ("cs", 6), ("other", 3)]

/-- `getFileTypeImportance`: table lookup with default 3. -/
def getFileTypeImportance (t : String) : ℚ :=
  ((importanceMap.find? (fun p => p.1 == t)).map (·.2)).getD 3

/-- `analyzeRepository` from the discovered files onward: build the lookup
maps, one node per file, the edge list, the connection counts, and finalise
each node's importance as base-by-type plus half its connection count. -/
def analyzeRepository (files : List RepoFile) : DependencyGraph :=
  let maps := buildMaps files
  let nodes0 := files.map mkNode
  let edges := files.flatMap fun f => edgesForFile f maps.1 maps.2
  let counts := connectionCounts edges
  let nodes := nodes0.map fun n =>
    { n with importance := getFileTypeImportance n.type + (countOf counts n.id : ℚ) * (1 / 2) }
  { nodes := nodes, edges := edges }

/-- The zero-node check of `RepoForm.handleSubmit` on a received graph. -/
def handleSubmitCheck (g : DependencyGraph) : Except String DependencyGraph :=
  if g.nodes.length == 0 then Except.error "No relevant files found in the repository"
  else Except.ok g

/-! ## Helper lemmas -/

theorem getAssoc_cons {α : Type} (p : String × α) (rest : List (String × α)) (k : String) :
    getAssoc (p :: rest) k = if p.1 = k then some p.2 else getAssoc rest k := by
  by_cases h : p.1 = k
  · simp [getAssoc, List.find?, h]
  · have hbe : (p.1 == k) = false := by simp [h]
    simp [getAssoc, List.find?, hbe, h]

theorem getAssoc_setAssoc {α : Type} (m : List (String × α)) (k k2 : String) (v : α) :
    getAssoc (setAssoc m k v) k2 = if k2 = k then some v else getAssoc m k2 := by
  induction m with
  | nil =>
    have h0 : setAssoc ([] : List (String × α)) k v = [(k, v)] := rfl
    rw [h0, getAssoc_cons]
    by_cases h : k2 = k
    · simp [h]
    · have hne : ¬(k = k2) := fun h2 => h h2.symm
      simp [h, hne, getAssoc, List.find?]
  | cons p rest ih =>
    by_cases hp : p.1 = k
    · have h0 : setAssoc (p :: rest) k v = (k, v) :: rest := by
        simp [setAssoc, hp]
      rw [h0, getAssoc_cons, getAssoc_cons]
      by_cases h : k2 = k
      · simp [h]
      · have hne : ¬(k = k2) := fun h2 => h h2.symm
        have hne2 : ¬(p.1 = k2) := by rw [hp]; exact hne
        simp [h, hne, hne2]
    · have hbe : (p.1 == k) = false := by simp [hp]
      have h0 : setAssoc (p :: rest) k v = p :: setAssoc rest k v := by
        simp [setAssoc, hbe]
      rw [h0, getAssoc_cons, getAssoc_cons, ih]
      by_cases h2 : p.1 = k2
      · have : ¬(k2 = k) := by rw [← h2]; exact hp
        simp [h2, this]
      · simp [h2]

theorem mem_setAssoc {α : Type} {m : List (String × α)} {k : String} {v : α} :
    ∀ p ∈ setAssoc m k v, p ∈ m ∨ p = (k, v) := by
  induction m with
  | nil =>
    intro p hp
    have h0 : setAssoc ([] : List (String × α)) k v = [(k, v)] := rfl
    rw [h0] at hp
    right; exact List.mem_singleton.mp hp
  | cons q rest ih =>
    intro p hp
    by_cases hq : q.1 = k
    · have h0 : setAssoc (q :: rest) k v = (k, v) :: rest := by simp [setAssoc, hq]
      rw [h0] at hp
      rcases List.mem_cons.mp hp with h | h
      · right; exact h
      · left; exact List.mem_cons_of_mem q h
    · have hbe : (q.1 == k) = false := by simp [hq]
      have h0 : setAssoc (q :: rest) k v = q :: setAssoc rest k v := by simp [setAssoc, hbe]
      rw [h0] at hp
      rcases List.mem_cons.mp hp with h | h
      · left; exact h ▸ List.mem_cons_self q rest
      · rcases ih p h with h2 | h2
        · left; exact List.mem_cons_of_mem q h2
        · right; exact h2

theorem getAssoc_mem {α : Type} {m : List (String × α)} {k : String} {v : α}
    (h : getAssoc m k = some v) : ∃ p ∈ m, p.2 = v := by
  unfold getAssoc at h
  cases hf : m.find? (fun p => p.1 == k) with
  | none => rw [hf] at h; simp at h
  | some p =>
    rw [hf] at h
    exact ⟨p, List.mem_of_find?_eq_some hf, Option.some.inj h⟩

/-- Every value of the file map built by `buildStep` from value-good state
stays among the good paths, and likewise every member of every directory
set. -/
theorem buildStep_inv {Q : String → Prop}
    (ms : List (String × String) × List (String × List String)) (f : RepoFile)
    (h1 : ∀ p ∈ ms.1, Q p.2) (h2 : ∀ q ∈ ms.2, ∀ x ∈ q.2, Q x) (hf : Q f.path) :
    (∀ p ∈ (buildStep ms f).1, Q p.2) ∧
    (∀ q ∈ (buildStep ms f).2, ∀ x ∈ q.2, Q x) := by
  constructor
  · intro p hp
    rcases mem_setAssoc p hp with h | h
    · exact h1 p h
    · rw [h]; exact hf
  · intro q hq x hx
    rcases mem_setAssoc q hq with h | h
    · exact h2 q h x hx
    · rw [h] at hx
      have hcur : ∀ y ∈ (getAssoc ms.2 (pathDirname f.path)).getD [], Q y := by
        intro y hy
        cases hg : getAssoc ms.2 (pathDirname f.path) with
        | none => rw [hg] at hy; simp at hy
        | some l =>
          rw [hg] at hy
          obtain ⟨q2, hq2, he⟩ := getAssoc_mem hg
          exact h2 q2 hq2 y (he ▸ hy)
      by_cases hc :
          ((getAssoc ms.2 (pathDirname f.path)).getD []).contains f.path
      · simp only [buildStep, hc, if_true] at hx
        exact hcur x hx
      · simp only [buildStep, hc, Bool.false_eq_true, if_false] at hx
        rcases List.mem_append.mp hx with h3 | h3
        · exact hcur x h3
        · rw [List.mem_singleton.mp h3]; exact hf

theorem buildMapsFold_inv (Q : String → Prop) :
    ∀ (files : List RepoFile) (acc : List (String × String) × List (String × List String)),
    (∀ p ∈ acc.1, Q p.2) → (∀ q ∈ acc.2, ∀ x ∈ q.2, Q x) → (∀ f ∈ files, Q f.path) →
    (∀ p ∈ (files.foldl buildStep acc).1, Q p.2) ∧
    (∀ q ∈ (files.foldl buildStep acc).2, ∀ x ∈ q.2, Q x) := by
  intro files
  induction files with
  | nil => intro acc h1 h2 _; exact ⟨h1, h2⟩
  | cons f rest ih =>
    intro acc h1 h2 hf
    have hstep := buildStep_inv acc f h1 h2 (hf f (List.mem_cons_self f rest))
    exact ih (buildStep acc f) hstep.1 hstep.2
      (fun g hg => hf g (List.mem_cons_of_mem f hg))

/-- Every value of `buildMaps`' file map is the path of one of the files,
and so is every member of every directory set. -/
theorem buildMaps_inv (files : List RepoFile) :
    (∀ p ∈ (buildMaps files).1, ∃ f ∈ files, p.2 = f.path) ∧
    (∀ q ∈ (buildMaps files).2, ∀ x ∈ q.2, ∃ f ∈ files, x = f.path) := by
  exact buildMapsFold_inv (fun x => ∃ f ∈ files, x = f.path) files ([], [])
    (by intro p hp; simp at hp) (by intro q hq; simp at hq)
    (fun f hf => ⟨f, hf, rfl⟩)

theorem firstExtMatch_inv {fm : List (String × String)} {rel t : String}
    {exts : List String} (h : firstExtMatch fm rel exts = some t) :
    ∃ p ∈ fm, p.2 = t := by
  induction exts with
  | nil => simp [firstExtMatch] at h
  | cons ext rest ih =>
    unfold firstExtMatch at h
    cases hg : getAssoc fm (normalizeKey (rel ++ ext)) with
    | some v =>
      rw [hg] at h
      obtain ⟨p, hp, he⟩ := getAssoc_mem hg
      exact ⟨p, hp, he.trans (Option.some.inj h)⟩
    | none => rw [hg] at h; exact ih h

theorem firstIndexMatch_inv {dirFiles : List String} {targetDir t : String}
    {exts : List String} (h : firstIndexMatch dirFiles targetDir exts = some t) :
    t ∈ dirFiles := by
  induction exts with
  | nil => simp [firstIndexMatch] at h
  | cons ext rest ih =>
    unfold firstIndexMatch at h
    by_cases hc : dirFiles.contains (pathJoin targetDir ("index" ++ ext))
    · simp only [hc, if_true] at h
      have := Option.some.inj h
      rw [← this]
      exact List.mem_of_elem_eq_true hc
    · simp only [hc, Bool.false_eq_true, if_false] at h
      exact ih h

theorem firstBasenameMatch_inv {fm : List (String × String)} {base t : String}
    {exts : List String} (h : firstBasenameMatch fm base exts = some t) :
    ∃ p ∈ fm, p.2 = t := by
  induction exts with
  | nil => simp [firstBasenameMatch] at h
  | cons ext rest ih =>
    simp only [firstBasenameMatch] at h
    cases hf : fm.find? (fun p => pathBasename p.1 == strToLower (base ++ ext)) with
    | some p =>
      rw [hf] at h
      exact ⟨p, List.mem_of_find?_eq_some hf, Option.some.inj h⟩
    | none => rw [hf] at h; exact ih h

/-- A successful resolution's target is a file-map value or a member of a
directory set. -/
theorem fastResolveImport_inv {src imp t : String}
    {fm : List (String × String)} {fbd : List (String × List String)}
    (h : fastResolveImport src imp fm fbd = some t) :
    (∃ p ∈ fm, p.2 = t) ∨ (∃ q ∈ fbd, t ∈ q.2) := by
  simp only [fastResolveImport] at h
  cases h1 : firstExtMatch fm (resolveCandidate src imp) extensionsList with
  | some v =>
    rw [h1] at h
    exact Or.inl ((Option.some.inj h) ▸ firstExtMatch_inv h1)
  | none =>
    rw [h1] at h
    dsimp only at h
    cases h2 : getAssoc fbd (pathDirname (resolveCandidate src imp)) with
    | some dirFiles =>
      rw [h2] at h
      dsimp only at h
      cases h3 : firstIndexMatch dirFiles (pathDirname (resolveCandidate src imp))
          extensionsList with
      | some v =>
        rw [h3] at h
        dsimp only at h
        obtain ⟨q, hq, he⟩ := getAssoc_mem h2
        exact Or.inr ⟨q, hq, he ▸ ((Option.some.inj h) ▸ firstIndexMatch_inv h3)⟩
      | none =>
        rw [h3] at h
        dsimp only at h
        exact Or.inl (firstBasenameMatch_inv h)
    | none =>
      rw [h2] at h
      dsimp only at h
      exact Or.inl (firstBasenameMatch_inv h)

/-- Everything an emitted edge guarantees: its source is the contributing
file, its target differs from the source and came out of a successful
resolution, and its value is 1. -/
theorem edgesForFile_inv {f : RepoFile} {fm : List (String × String)}
    {fbd : List (String × List String)} {e : DependencyEdge}
    (h : e ∈ edgesForFile f fm fbd) :
    e.source = f.path ∧ e.value = 1 ∧ e.target ≠ f.path ∧
    ∃ imp ∈ extractImports f.content,
      (strStartsWith imp "." || strStartsWith imp "/") = true ∧
      fastResolveImport f.path imp fm fbd = some e.target := by
  unfold edgesForFile at h
  rw [List.mem_filterMap] at h
  obtain ⟨imp, himp, hsome⟩ := h
  by_cases hrel : (strStartsWith imp "." || strStartsWith imp "/") = true
  · rw [if_pos hrel] at hsome
    cases hres : fastResolveImport f.path imp fm fbd with
    | none => rw [hres] at hsome; simp at hsome
    | some rt =>
      rw [hres] at hsome
      dsimp only at hsome
      by_cases hne : rt ≠ f.path
      · rw [if_pos hne] at hsome
        have he := (Option.some.inj hsome).symm
        refine ⟨by rw [he], by rw [he], by rw [he]; exact hne, imp, himp, hrel, ?_⟩
        rw [he]; exact hres
      · rw [if_neg hne] at hsome; simp at hsome
  · rw [if_neg hrel] at hsome; simp at hsome

theorem countOf_setAssoc (m : List (String × Nat)) (k k2 : String) (v : Nat) :
    countOf (setAssoc m k v) k2 = if k2 = k then v else countOf m k2 := by
  unfold countOf
  rw [getAssoc_setAssoc]
  by_cases h : k2 = k <;> simp [h]

theorem countOf_connStep (m : List (String × Nat)) (e : DependencyEdge) (id : String) :
    countOf (connStep m e) id =
      countOf m id + (if id = e.source then 1 else 0) + (if id = e.target then 1 else 0) := by
  have h1 : connStep m e =
      setAssoc (setAssoc m e.source (countOf m e.source + 1)) e.target
        (countOf (setAssoc m e.source (countOf m e.source + 1)) e.target + 1) := rfl
  rw [h1, countOf_setAssoc, countOf_setAssoc, countOf_setAssoc]
  by_cases ht : id = e.target <;> by_cases hs : id = e.source
  · have hts : e.target = e.source := ht.symm.trans hs
    simp [ht, hs, hts]
  · have hts : ¬(e.target = e.source) := fun h2 => hs (ht.trans h2)
    simp [ht, hs, hts]
  · have hst : ¬(e.source = e.target) := fun h2 => ht (hs.trans h2)
    simp [ht, hs, hst, fun h2 => hst (Eq.symm h2)]
  · simp [ht, hs]

theorem countOf_foldl (edges : List DependencyEdge) (m : List (String × Nat)) (id : String) :
    countOf (edges.foldl connStep m) id =
      countOf m id + (edges.filter (fun e => e.source == id)).length +
        (edges.filter (fun e => e.target == id)).length := by
  induction edges generalizing m with
  | nil => simp
  | cons e rest ih =>
    rw [List.foldl_cons, ih, countOf_connStep]
    rw [List.filter_cons, List.filter_cons]
    by_cases hs : e.source = id <;> by_cases ht : e.target = id
    · simp [hs, ht] <;> omega
    · simp [hs, ht, Ne.symm ht] <;> omega
    · simp [hs, ht, Ne.symm hs] <;> omega
    · simp [hs, ht, Ne.symm hs, Ne.symm ht] <;> omega

/-- The accumulated connection count of an id is the number of edges whose
source is the id plus the number whose target is it. -/
theorem countOf_connectionCounts (edges : List DependencyEdge) (id : String) :
    countOf (connectionCounts edges) id =
      (edges.filter (fun e => e.source == id)).length +
        (edges.filter (fun e => e.target == id)).length := by
  unfold connectionCounts
  rw [countOf_foldl]
  simp [countOf, getAssoc]

/-- In the absence of self-edges, counting source hits and target hits
separately is counting the edges touching the id. -/
theorem filter_touching_split (edges : List DependencyEdge) (id : String)
    (h : ∀ e ∈ edges, e.source ≠ e.target) :
    (edges.filter (fun e => e.source == id || e.target == id)).length =
      (edges.filter (fun e => e.source == id)).length +
        (edges.filter (fun e => e.target == id)).length := by
  induction edges with
  | nil => simp
  | cons e rest ih =>
    have hrest := ih (fun e2 he2 => h e2 (List.mem_cons_of_mem e he2))
    have hne := h e (List.mem_cons_self e rest)
    rw [List.filter_cons, List.filter_cons, List.filter_cons]
    by_cases hs : e.source = id <;> by_cases ht : e.target = id
    · exact absurd (hs.trans ht.symm) hne
    · simp [hs, ht, hrest] <;> omega
    · simp [hs, ht, hrest] <;> omega
    · simp [hs, ht, hrest] <;> omega

theorem analyzeRepository_edges (files : List RepoFile) :
    (analyzeRepository files).edges =
      files.flatMap fun f => edgesForFile f (buildMaps files).1 (buildMaps files).2 := rfl

theorem analyzeRepository_nodes (files : List RepoFile) :
    (analyzeRepository files).nodes =
      (files.map mkNode).map fun n =>
        { n with importance := getFileTypeImportance n.type +
            (countOf (connectionCounts ((analyzeRepository files).edges)) n.id : ℚ) * (1 / 2) } := rfl

theorem analyze_node_ids (files : List RepoFile) :
    (analyzeRepository files).nodes.map DependencyNode.id = files.map RepoFile.path := by
  rw [analyzeRepository_nodes, List.map_map, List.map_map]
  rfl

/-- Inversion for a node of the result: it comes from one input file, with
the fields `mkNode` gives it and the finalised importance. -/
theorem analyze_nodes_mem {files : List RepoFile} {n : DependencyNode}
    (h : n ∈ (analyzeRepository files).nodes) :
    ∃ f ∈ files, n.id = f.path ∧ n.type = (mkNode f).type ∧
      n.lines = countLines f.content ∧ n.size = max 1 (countLines f.content / 10) ∧
      n.importance = getFileTypeImportance (mkNode f).type +
        (countOf (connectionCounts ((analyzeRepository files).edges)) f.path : ℚ) * (1 / 2) := by
  rw [analyzeRepository_nodes, List.map_map] at h
  rw [List.mem_map] at h
  obtain ⟨f, hf, he⟩ := h
  refine ⟨f, hf, ?_, ?_, ?_, ?_, ?_⟩ <;> rw [← he] <;> rfl

/-- Shared helper: the assembler only pushes an edge after checking the
resolved target differs from the source file. -/
theorem edges_no_self (files : List RepoFile) :
    ∀ e ∈ (analyzeRepository files).edges, e.source ≠ e.target := by
  intro e he
  rw [analyzeRepository_edges, List.mem_flatMap] at he
  obtain ⟨f, hf, hef⟩ := he
  obtain ⟨hsrc, _, hne, _⟩ := edgesForFile_inv hef
  rw [hsrc]
  exact Ne.symm hne

/-- Shared helper: both endpoints of every emitted edge are paths of input
files. -/
theorem edges_endpoints (files : List RepoFile) :
    ∀ e ∈ (analyzeRepository files).edges,
      e.source ∈ files.map RepoFile.path ∧ e.target ∈ files.map RepoFile.path := by
  intro e he
  rw [analyzeRepository_edges, List.mem_flatMap] at he
  obtain ⟨f, hf, hef⟩ := he
  obtain ⟨hsrc, _, _, imp, _, _, hres⟩ := edgesForFile_inv hef
  constructor
  · rw [hsrc]; exact List.mem_map_of_mem RepoFile.path hf
  · rcases fastResolveImport_inv hres with ⟨p, hp, he2⟩ | ⟨q, hq, he2⟩
    · obtain ⟨g, hg, he3⟩ := (buildMaps_inv files).1 p hp
      rw [← he2, he3]
      exact List.mem_map_of_mem RepoFile.path hg
    · obtain ⟨g, hg, he3⟩ := (buildMaps_inv files).2 q hq e.target he2
      rw [he3]
      exact List.mem_map_of_mem RepoFile.path hg

/-! ## Concrete repositories used by the claims -/

/-- A root `index.ts` importing `./utils`, with `utils/index.ts` present. -/
def repoC1 : List RepoFile :=
  [⟨"index.ts", "import u from \"./utils\""⟩, ⟨"utils/index.ts", ""⟩]

/-- Two import statements with the same specifier `./b`. -/
def repoC2a : List RepoFile :=
  [⟨"a.ts", "import x from \"./b\"\nimport y from \"./b\""⟩, ⟨"b.ts", ""⟩]

def contentC2a : String := "import x from \"./b\"\nimport y from \"./b\""

/-- Two import statements with distinct specifiers resolving to the same
file. -/
def repoC2b : List RepoFile :=
  [⟨"a.ts", "import x from \"./b\"\nimport y from \"././b\""⟩, ⟨"b.ts", ""⟩]

/-- A bare (package-style) import of `react` while `react.ts` exists. -/
def repoC6 : List RepoFile :=
  [⟨"a.ts", "import React from \"react\""⟩, ⟨"react.ts", ""⟩]

/-- Both `foo.ts` and `foo.js` exist beside the importing file (`foo.js`
listed first, so the outcome is not insertion order). -/
def repoC7 : List RepoFile :=
  [⟨"src/a.ts", "import f from \"./foo\""⟩, ⟨"src/foo.js", ""⟩, ⟨"src/foo.ts", ""⟩]

/-- Only `foo.js` exists beside the importing file. -/
def repoC7b : List RepoFile :=
  [⟨"src/a.ts", "import f from \"./foo\""⟩, ⟨"src/foo.js", ""⟩]

/-! ## The claims -/

/-- Claim C1 (code bug).  For `repoC1` the spec's directory-index fallback
should resolve `./utils` to `utils/index.ts`; however `fastResolveImport`
computes `path.dirname` of the candidate (`utils` → `.`) and probes `index`
files of the candidate's parent directory, so it resolves `./utils` to
`index.ts` — the importing file itself — and the assembler, finding
target = source, emits no edge at all. -/
theorem resolver_parent_index_bug :
    fastResolveImport "index.ts" "./utils" (buildMaps repoC1).1 (buildMaps repoC1).2 =
        some "index.ts" ∧
    (analyzeRepository repoC1).edges = [] := by
  constructor
  · rfl
  · rfl

/-- Claim C9, counterexample.  With zero discovered files the core returns
the ordinary empty `DependencyGraph` value — there is no distinct
"nothing to analyze" condition in the core itself. -/
theorem empty_analysis_plain_graph :
    analyzeRepository [] = { nodes := [], edges := [] } := rfl

/-- Claim C9, amended.  The analysis yields zero nodes exactly for zero
input files, and the distinct "nothing to analyze" condition is raised by
the UI form layer (`RepoForm.handleSubmit`), which rejects a zero-node
response with the error message "No relevant files found in the
repository". -/
theorem empty_condition_surfaced_by_form :
    (∀ files : List RepoFile, (analyzeRepository files).nodes = [] ↔ files = []) ∧
    handleSubmitCheck (analyzeRepository []) =
      Except.error "No relevant files found in the repository" := by
  constructor
  · intro files
    rw [analyzeRepository_nodes]
    simp
  · rfl

/-- Claim C8, counterexample.  A discovered file `Foo.TS` yields a node
whose `type` is `"TS"`: the source sets `type` to `path.extname(file).slice(1)`
without lower-casing, contradicting the claimed lower-cased extension
(which would be `"ts"`). -/
theorem node_type_not_lowercased :
    (analyzeRepository [⟨"Foo.TS", ""⟩]).nodes.map (fun n => n.type) = ["TS"] ∧
    ("TS" : String) ≠ "ts" := by
  constructor
  · rfl
  · decide

/-- The node-type contract as amended: the extension without the leading
dot, case preserved as in the file name; the sentinel "other" when the
extension is empty (no dot in the basename, a leading-dot-only basename, or
a bare trailing dot). -/
def amendedNodeType (p : String) : String :=
  let e := (pathExtname p).drop 1
  if e == "" then "other" else e

/-- Claim C8, amended.  Every node's `type` is the file's extension without
the leading dot with its original case preserved (not lower-cased), and
"other" when that is empty. -/
theorem node_type_extension_preserved_case (files : List RepoFile) :
    (analyzeRepository files).nodes.map (fun n => (n.id, n.type)) =
      files.map (fun f => (f.path, amendedNodeType f.path)) := by
  rw [analyzeRepository_nodes, List.map_map, List.map_map]
  rfl

/-- Claim C3.  Referential integrity: both endpoints of every edge of the
returned graph are ids of returned nodes. -/
theorem analyze_referential_integrity (files : List RepoFile) :
    ∀ e ∈ (analyzeRepository files).edges,
      e.source ∈ (analyzeRepository files).nodes.map DependencyNode.id ∧
      e.target ∈ (analyzeRepository files).nodes.map DependencyNode.id := by
  intro e he
  rw [analyze_node_ids]
  exact edges_endpoints files e he

theorem analyze_referential_integrity_witness :
    ({ source := "a.ts", target := "b.ts", value := 1 } : DependencyEdge) ∈
        (analyzeRepository repoC2a).edges ∧
    ("a.ts" ∈ (analyzeRepository repoC2a).nodes.map DependencyNode.id ∧
      "b.ts" ∈ (analyzeRepository repoC2a).nodes.map DependencyNode.id) :=
  ⟨by decide, analyze_referential_integrity repoC2a
    { source := "a.ts", target := "b.ts", value := 1 } (by decide)⟩

/-- Claim C4.  No self-edges: no edge of the returned graph has source
equal to target (a specifier resolving back to its own source file is
dropped before an edge is pushed). -/
theorem analyze_no_self_edges (files : List RepoFile) :
    ∀ e ∈ (analyzeRepository files).edges, e.source ≠ e.target :=
  edges_no_self files

theorem analyze_no_self_edges_witness :
    ({ source := "a.ts", target := "b.ts", value := 1 } : DependencyEdge) ∈
        (analyzeRepository repoC2b).edges ∧
    ("a.ts" : String) ≠ "b.ts" :=
  ⟨by decide, analyze_no_self_edges repoC2b
    { source := "a.ts", target := "b.ts", value := 1 } (by decide)⟩

/-- Claim C10.  Every node of the returned graph has at least one line and
size at least 1: the line count is one plus the number of newlines (so an
empty or unreadable file gets 1), and the size is clamped below by 1. -/
theorem node_lines_size_positive (files : List RepoFile) :
    ∀ n ∈ (analyzeRepository files).nodes, 1 ≤ n.lines ∧ 1 ≤ n.size := by
  intro n hn
  obtain ⟨f, _, _, _, hlines, hsize, _⟩ := analyze_nodes_mem hn
  constructor
  · rw [hlines]; unfold countLines; omega
  · rw [hsize]; exact le_max_left 1 _

theorem mdRepo_has_node :
    0 < (analyzeRepository [{ path := "a.md", content := "" }]).nodes.length := by decide

theorem node_lines_size_positive_witness :
    1 ≤ ((analyzeRepository [{ path := "a.md", content := "" }]).nodes.get
        ⟨0, mdRepo_has_node⟩).lines ∧
    1 ≤ ((analyzeRepository [{ path := "a.md", content := "" }]).nodes.get
        ⟨0, mdRepo_has_node⟩).size :=
  node_lines_size_positive [{ path := "a.md", content := "" }]
    ((analyzeRepository [{ path := "a.md", content := "" }]).nodes.get ⟨0, mdRepo_has_node⟩)
    (List.get_mem _ _ _)

/-- Claim C2, counterexample.  `contentC2a` holds two distinct import
statements, both of which the ES6 pattern matches and both of which resolve
to `b.ts`; the claim therefore predicts two edges, but the extractor
deduplicates the equal specifier strings through its `Set`, so exactly one
edge is emitted. -/
theorem duplicate_statements_single_edge :
    scanWith matchEs6Import contentC2a = ["./b", "./b"] ∧
    extractImports contentC2a = ["./b"] ∧
    (analyzeRepository repoC2a).edges =
      [{ source := "a.ts", target := "b.ts", value := 1 }] := by
  refine ⟨by decide, by decide, by decide⟩

theorem addSpecifier_nodup {acc : List String} (raw : String) (h : acc.Nodup) :
    (addSpecifier acc raw).Nodup := by
  unfold addSpecifier
  split
  · exact h
  · dsimp only
    split
    · exact h
    · split
      · exact h
      · rename_i hc
        rw [List.nodup_append]
        refine ⟨h, List.nodup_singleton _, ?_⟩
        intro a ha hb
        rw [List.mem_singleton] at hb
        exact hc (by rw [hb] at ha; exact List.elem_eq_true_of_mem ha)

theorem foldl_addSpecifier_nodup (caps : List String) :
    ∀ acc : List String, acc.Nodup → (caps.foldl addSpecifier acc).Nodup := by
  induction caps with
  | nil => intro acc h; exact h
  | cons raw rest ih =>
    intro acc h
    rw [List.foldl_cons]
    exact ih (addSpecifier acc raw) (addSpecifier_nodup raw h)

def contentC2b : String := "import x from \"./b\"\nimport y from \"././b\""

/-- Claim C2, amended.  Duplicate (source, target) pairs are permitted with
one edge per distinct extracted specifier: the extractor's result never
repeats a specifier string, and the two distinct specifiers `./b` and
`././b` of `repoC2b`, which resolve to the same file, produce two edges
between the same pair of files. -/
theorem duplicate_edges_per_distinct_specifier :
    (∀ content : String, (extractImports content).Nodup) ∧
    extractImports contentC2b = ["./b", "././b"] ∧
    (analyzeRepository repoC2b).edges =
      [{ source := "a.ts", target := "b.ts", value := 1 },
       { source := "a.ts", target := "b.ts", value := 1 }] := by
  refine ⟨?_, by decide, by decide⟩
  intro content
  exact foldl_addSpecifier_nodup (patternCaptures content) [] List.nodup_nil

/-- Claim C6.  Bare specifiers never produce edges: a file all of whose
extracted specifiers start with neither `.` nor `/` contributes no edges at
all, whatever the lookup maps contain; in particular the bare import of
`react` in `repoC6` yields zero edges even though `react.ts` is a
discovered file. -/
theorem bare_specifiers_no_edges :
    (∀ (f : RepoFile) (fm : List (String × String)) (fbd : List (String × List String)),
        (∀ s ∈ extractImports f.content,
            strStartsWith s "." = false ∧ strStartsWith s "/" = false) →
        edgesForFile f fm fbd = []) ∧
    (analyzeRepository repoC6).edges = [] := by
  constructor
  · intro f fm fbd h
    unfold edgesForFile
    rw [List.filterMap_eq_nil_iff]
    intro imp himp
    obtain ⟨h1, h2⟩ := h imp himp
    simp [h1, h2]
  · decide

theorem bare_specifiers_no_edges_witness :
    edgesForFile { path := "a.ts", content := "import React from \"react\"" }
      (buildMaps repoC6).1 (buildMaps repoC6).2 = [] :=
  bare_specifiers_no_edges.1 { path := "a.ts", content := "import React from \"react\"" }
    (buildMaps repoC6).1 (buildMaps repoC6).2 (by decide)

/-- Claim C7.  Extension priority in exact-match resolution: whenever the
candidate path extended with `.ts` is a key of the file map, resolution
returns that entry immediately (`.ts` heads the fixed priority list);
concretely, with both `src/foo.ts` and `src/foo.js` discovered —
`foo.js` even listed first — `./foo` from `src/a.ts` resolves to
`src/foo.ts`, while with only `src/foo.js` present it resolves to
`src/foo.js`. -/
theorem extension_priority_resolution :
    (∀ (src imp t : String) (fm : List (String × String))
        (fbd : List (String × List String)),
        getAssoc fm (normalizeKey (resolveCandidate src imp ++ ".ts")) = some t →
        fastResolveImport src imp fm fbd = some t) ∧
    (analyzeRepository repoC7).edges =
      [{ source := "src/a.ts", target := "src/foo.ts", value := 1 }] ∧
    (analyzeRepository repoC7b).edges =
      [{ source := "src/a.ts", target := "src/foo.js", value := 1 }] := by
  refine ⟨?_, by decide, by decide⟩
  intro src imp t fm fbd h
  simp only [fastResolveImport]
  have h1 : firstExtMatch fm (resolveCandidate src imp) extensionsList = some t := by
    simp only [extensionsList, firstExtMatch, h]
  rw [h1]

theorem extension_priority_resolution_witness :
    fastResolveImport "src/a.ts" "./foo" (buildMaps repoC7).1 (buildMaps repoC7).2 =
      some "src/foo.ts" :=
  extension_priority_resolution.1 "src/a.ts" "./foo" "src/foo.ts"
    (buildMaps repoC7).1 (buildMaps repoC7).2 (by decide)

/-- Claim C5.  For every node of the returned graph, the final importance is
the base importance of its type plus half the number of emitted edges
touching it in either direction; the table gives `json` the top score 8,
no type scores above 8, and a type absent from the table defaults to 3. -/
theorem analyze_importance_formula :
    (∀ (files : List RepoFile), ∀ n ∈ (analyzeRepository files).nodes,
        n.importance = getFileTypeImportance n.type +
          (((analyzeRepository files).edges.filter
              (fun e => e.source == n.id || e.target == n.id)).length : ℚ) * (1 / 2)) ∧
    getFileTypeImportance "json" = 8 ∧
    (∀ t : String, getFileTypeImportance t ≤ 8) ∧
    (∀ t : String, (∀ p ∈ importanceMap, p.1 ≠ t) → getFileTypeImportance t = 3) := by
  refine ⟨?_, rfl, ?_, ?_⟩
  · intro files n hn
    obtain ⟨f, hf, hid, htype, _, _, himp⟩ := analyze_nodes_mem hn
    rw [himp, htype, hid]
    rw [countOf_connectionCounts ((analyzeRepository files).edges) f.path]
    rw [filter_touching_split ((analyzeRepository files).edges) f.path (edges_no_self files)]
  · intro t
    unfold getFileTypeImportance
    cases hf : importanceMap.find? (fun p => p.1 == t) with
    | none => norm_num
    | some p =>
      have hm := List.mem_of_find?_eq_some hf
      have hall : ∀ q ∈ importanceMap, q.2 ≤ 8 := by decide
      simpa using hall p hm
  · intro t ht
    unfold getFileTypeImportance
    have hnone : importanceMap.find? (fun p => p.1 == t) = none := by
      rw [List.find?_eq_none]
      intro p hp
      simp [ht p hp]
    rw [hnone]
    rfl

theorem repoC2a_has_node : 0 < (analyzeRepository repoC2a).nodes.length := by decide

theorem analyze_importance_formula_witness :
    (((analyzeRepository repoC2a).nodes.get ⟨0, repoC2a_has_node⟩).importance =
      getFileTypeImportance ((analyzeRepository repoC2a).nodes.get
          ⟨0, repoC2a_has_node⟩).type +
        (((analyzeRepository repoC2a).edges.filter
            (fun e =>
              e.source == ((analyzeRepository repoC2a).nodes.get
                ⟨0, repoC2a_has_node⟩).id ||
              e.target == ((analyzeRepository repoC2a).nodes.get
                ⟨0, repoC2a_has_node⟩).id)).length : ℚ) * (1 / 2)) ∧
    getFileTypeImportance "xyz" = 3 :=
  ⟨analyze_importance_formula.1 repoC2a
      ((analyzeRepository repoC2a).nodes.get ⟨0, repoC2a_has_node⟩) (List.get_mem _ _ _),
   analyze_importance_formula.2.2.2 "xyz" (by decide)⟩
